import Mathlib

/-!
Verification of the URL-span extraction and line-rewrite engine of
`un-discordcdn` (`src/main.py`).

A Python string is modelled as a `List Char` (`Str`).  Each Python function of
`main.py` is translated into a Lean function of the same name; the helper
functions (`findSub`, `findCharFrom`, `rfindChar`, `pyReplaceHttps`,
`pyEndsWith`, `charBefore`, slicing via `List.take`/`List.drop`) model the
Python string primitives that `main.py` uses (`str.find`, `str.rfind`,
`str.replace`, `str.endswith`, indexing — including Python's negative-index
wrap-around — and slice syntax).

The network fetch (`save_file_from_url`) and the filesystem writes are
external I/O whose results never influence the strings the program computes;
the per-line and per-file functions are therefore modelled as the pure string
transformations performed by the code, with `update_urls_in_file` returning
`none` when the file is left unwritten and `some (newLines, reportedCount)`
when it is rewritten and reported, and `update_urls_in_project` returning the
list of file paths on which the File Processor is invoked.

`Char.isAlphanum` models Python's `str.isalnum` (they agree on the ASCII
characters that appear in the properties checked here).
-/

/-- A Python string, modelled as its list of characters. -/
abbrev Str := List Char

/-- The fixed CDN origin searched for by `extract_url_from_text`
(`main.py` line 16). -/
def cdnPat : Str := "https://cdn.discordapp.com".data

/-- `main.py` line 5. -/
def NO_MATCHES_FOUND : Nat := 9999999

/-- Index of the first occurrence of `pat` in the list, if any
(helper for Python's `str.find(sub)`). -/
def findSubAux (pat : Str) : Str → Option Nat
  | [] => if pat.isPrefixOf ([] : Str) then some 0 else none
  | c :: rest =>
    if pat.isPrefixOf (c :: rest) then some 0
    else (findSubAux pat rest).map (· + 1)

/-- Python `text.find(pat)`: index of the first occurrence of the substring
`pat` in `text`; `none` models Python's `-1`. -/
def findSub (text pat : Str) : Option Nat := findSubAux pat text

/-- Index of the first occurrence of the character `c`, if any
(helper for Python's `str.find(ch, start)`). -/
def findCharAux (c : Char) : Str → Option Nat
  | [] => none
  | a :: rest => if a = c then some 0 else (findCharAux c rest).map (· + 1)

/-- Python `text.find(c, start)`: index of the first occurrence of the
character `c` at position `start` or later; `none` models Python's `-1`. -/
def findCharFrom (text : Str) (c : Char) (start : Nat) : Option Nat :=
  (findCharAux c (text.drop start)).map (· + start)

/-- Python `text[st - 1]` as evaluated by `main.py` line 23: for `st ≥ 1`
this is the character before position `st`; for `st = 0` Python's negative
indexing makes `text[-1]` the LAST character of the string.  (The defaults
are irrelevant: on every reachable call the index is in range.) -/
def charBefore (text : Str) (st : Nat) : Char :=
  if st = 0 then text.getLastD ' ' else text.getD (st - 1) ' '

/-- The end index computed by `main.py` lines 29-44 for a match of `cdnPat`
at position `st`: the minimum of the next occurrence (at `st` or later) of
the character preceding the match, of a space and of a closing parenthesis,
each replaced by `NO_MATCHES_FOUND` when absent; when the minimum is
`NO_MATCHES_FOUND`, the fallback `len(text) - 1`.  (The `end_index == -1`
test on line 43 is unreachable, all three candidates having been made
non-negative on lines 36-38.) -/
def endIndexOf (text : Str) (st : Nat) : Nat :=
  let e1 := (findCharFrom text (charBefore text st) st).getD NO_MATCHES_FOUND
  let e2 := (findCharFrom text ' ' st).getD NO_MATCHES_FOUND
  let e3 := (findCharFrom text ')' st).getD NO_MATCHES_FOUND
  let m := min (min e1 e2) e3
  if m = NO_MATCHES_FOUND then text.length - 1 else m

/-- `extract_url_from_text` (`main.py` lines 8-46): find the first occurrence
of the CDN origin, reject it when `text[start_index - 1]` is alphanumeric,
and return `(text[start_index:end_index], start_index, end_index)`. -/
def extract_url_from_text (text : Str) : Option (Str × Nat × Nat) :=
  match findSub text cdnPat with
  | none => none
  | some start_index =>
    if (charBefore text start_index).isAlphanum then none
    else
      some ((text.drop start_index).take (endIndexOf text start_index - start_index),
            start_index, endIndexOf text start_index)

/-- Python `s.endswith(c)` for a single character `c`. -/
def pyEndsWith (s : Str) (c : Char) : Bool := s.getLast? == some c

/-- The pattern removed by `main.py` line 61. -/
def httpsMarker : Str := "https://".data

/-- Python `url.replace('https://', '')` (`main.py` line 61): remove every
occurrence of the pattern `https://`, scanning left to right without
rescanning the junction of the pieces (the first branch spells out
`httpsMarker`, keeping the recursion structural). -/
def pyReplaceHttps : Str → Str
  | 'h' :: 't' :: 't' :: 'p' :: 's' :: ':' :: '/' :: '/' :: rest => pyReplaceHttps rest
  | a :: rest => a :: pyReplaceHttps rest
  | [] => []

/-- Python `s.rfind(c)`: index of the last occurrence of the character `c`;
`none` models Python's `-1`. -/
def rfindChar (c : Char) : Str → Option Nat
  | [] => none
  | a :: rest =>
    match rfindChar c rest with
    | some i => some (i + 1)
    | none => if a = c then some 0 else none

/-- `get_file_name_from_url` (`main.py` lines 49-76): strip one trailing
`/`, remove the occurrences of `https://`, take everything after the last
remaining `/` (`none` when no `/` remains, i.e. when `rfind` returns `-1`
and so `index == 0`), and strip one trailing `?`. -/
def get_file_name_from_url (url : Str) : Option Str :=
  let u1 := if pyEndsWith url '/' then url.dropLast else url
  let u2 := pyReplaceHttps u1
  match rfindChar '/' u2 with
  | none => none
  | some i =>
    let file_name := u2.drop (i + 1)
    some (if pyEndsWith file_name '?' then file_name.dropLast else file_name)

/-- `update_file_url` (`main.py` lines 90-101):
`text[:start_index] + ('/' + file_name) + text[end_index:]`. -/
def update_file_url (text file_name : Str) (start_index end_index : Nat) : Str :=
  text.take start_index ++ ('/' :: file_name) ++ text.drop end_index

/-- The flag `update_urls_in_project` passes to the File Processor
(`main.py` line 184): `file_path.endswith('.md')`. -/
def mdInclude (file_path : Str) : Bool := ".md".data.isSuffixOf file_path

/-- The destination path `public_dir + '/' + file_name` built on
`main.py` lines 123 and 127. -/
def assetDestPath (project_path file_name : Str) : Str :=
  (project_path ++ "/public".data) ++ ('/' :: file_name)

/-- `update_url_in_line` (`main.py` lines 104-134), restricted to the string
it returns: extract a URL span, derive a filename, optionally add the
`public/` route piece, and splice the local reference into the line.  The
directory creation and the asset fetch (lines 123-128) are external I/O that
never changes the returned line, so they do not appear here. -/
def update_url_in_line (line : Str) (include_public_dir : Bool) : Str :=
  match extract_url_from_text line with
  | none => line
  | some (url, start_index, end_index) =>
    match get_file_name_from_url url with
    | none => line
    | some file_name =>
      update_file_url line
        (if include_public_dir then "public/".data ++ file_name else file_name)
        start_index end_index

/-- Python `len(set(lines) - set(old_lines))` (`main.py` line 158). -/
def pyNewLinesCount (old_lines lines : List Str) : Nat :=
  (lines.toFinset \ old_lines.toFinset).card

/-- `update_urls_in_file` (`main.py` lines 137-162), restricted to the data
it produces: map `update_url_in_line` over the lines; when nothing changed,
return `none` (no write, no console report); otherwise return the rewritten
lines together with the count printed on line 159,
`len(set(lines) - set(old_lines))`. -/
def update_urls_in_file (old_lines : List Str) (include_public_dir : Bool) :
    Option (List Str × Nat) :=
  let lines := old_lines.map (fun l => update_url_in_line l include_public_dir)
  if lines = old_lines then none
  else some (lines, pyNewLinesCount old_lines lines)

/-- `ignored_dirs` (`main.py` line 174). -/
def ignored_dirs : List Str := [".git".data, "node_modules".data, "__pycache__".data]

/-- Python `needle in hay` for strings: substring containment. -/
def pyContains (hay needle : Str) : Bool := (findSub hay needle).isSome

/-- `update_urls_in_project` (`main.py` lines 165-184), restricted to its
file selection: of the files enumerated under the project root, exactly
those whose full path contains no ignored fragment as a substring are passed
to `update_urls_in_file` (line 181 skips the rest).  The returned list is
the list of paths on which the File Processor is invoked. -/
def update_urls_in_project (files : List Str) : List Str :=
  files.filter (fun file_path => !(ignored_dirs.any (fun d => pyContains file_path d)))

/-- The Filename Deriver exactly as the spec's five steps read (§4.2, and
claim C6): step 2 strips only a LEADING `https://`. -/
def filenameDeriverSpecLeading (url : Str) : Option Str :=
  let u1 := if pyEndsWith url '/' then url.dropLast else url
  let u2 := if httpsMarker.isPrefixOf u1 then u1.drop 8 else u1
  match rfindChar '/' u2 with
  | none => none
  | some i =>
    let file_name := u2.drop (i + 1)
    some (if pyEndsWith file_name '?' then file_name.dropLast else file_name)

/-- The five-step reference definition amended at step 2: remove EVERY
occurrence of `https://`, as `str.replace` does. -/
def filenameDeriverSpecAll (url : Str) : Option Str :=
  let u1 := if pyEndsWith url '/' then url.dropLast else url
  let u2 := pyReplaceHttps u1
  match rfindChar '/' u2 with
  | none => none
  | some i =>
    let file_name := u2.drop (i + 1)
    some (if pyEndsWith file_name '?' then file_name.dropLast else file_name)

/-- The count the spec's words in claim C4 describe: the number of distinct
new line values appearing at positions where the rewritten line differs from
the original line. -/
def distinctChangedLinesCount (old_lines lines : List Str) : Nat :=
  (((old_lines.zip lines).filter (fun q => decide (q.1 ≠ q.2))).map Prod.snd).toFinset.card

/-! ## Helper lemmas -/

theorem findSubAux_isPrefixOf {pat s : Str} {i : Nat} (h : findSubAux pat s = some i) :
    pat.isPrefixOf (s.drop i) = true := by
  induction s generalizing i with
  | nil =>
    rw [findSubAux] at h
    split at h
    · cases h; simpa using ‹pat.isPrefixOf ([] : Str) = true›
    · cases h
  | cons a rest ih =>
    rw [findSubAux] at h
    split at h
    · cases h; simpa using ‹pat.isPrefixOf (a :: rest) = true›
    · rw [Option.map_eq_some'] at h
      obtain ⟨j, hj, hji⟩ := h
      subst hji
      simpa using ih hj

theorem findCharAux_spec {c : Char} {s : Str} {i : Nat} (h : findCharAux c s = some i) :
    i < s.length ∧ s[i]? = some c := by
  induction s generalizing i with
  | nil => cases h
  | cons a rest ih =>
    rw [findCharAux] at h
    split at h
    · cases h
      exact ⟨by simp, by simpa using ‹a = c›⟩
    · rw [Option.map_eq_some'] at h
      obtain ⟨j, hj, hji⟩ := h
      subst hji
      obtain ⟨h1, h2⟩ := ih hj
      exact ⟨by simpa using h1, by simpa using h2⟩

theorem findCharFrom_spec {text : Str} {c : Char} {st j : Nat}
    (h : findCharFrom text c st = some j) :
    st ≤ j ∧ j < text.length ∧ text[j]? = some c := by
  rw [findCharFrom, Option.map_eq_some'] at h
  obtain ⟨i, hi, hij⟩ := h
  obtain ⟨h1, h2⟩ := findCharAux_spec hi
  rw [List.length_drop] at h1
  rw [List.getElem?_drop] at h2
  subst hij
  refine ⟨by omega, by omega, ?_⟩
  rw [Nat.add_comm i st]
  exact h2

theorem cdn_match_head {text : Str} {st : Nat}
    (hp : cdnPat.isPrefixOf (text.drop st) = true) : text[st]? = some 'h' := by
  obtain ⟨t, ht⟩ := List.isPrefixOf_iff_prefix.mp hp
  have h0 : (text.drop st)[0]? = some 'h' := by
    rw [← ht, List.getElem?_append_left (by decide : (0 : Nat) < cdnPat.length)]
    rfl
  rw [List.getElem?_drop] at h0
  simpa using h0

theorem cdn_match_length {text : Str} {st : Nat}
    (hp : cdnPat.isPrefixOf (text.drop st) = true) : st + 26 ≤ text.length := by
  have h1 := (List.isPrefixOf_iff_prefix.mp hp).length_le
  rw [List.length_drop] at h1
  have h2 : cdnPat.length = 26 := by decide
  omega

theorem endIndexOf_bounds {text : Str} {st : Nat}
    (hp : cdnPat.isPrefixOf (text.drop st) = true)
    (hb : (charBefore text st).isAlphanum = false) :
    st < endIndexOf text st ∧ endIndexOf text st ≤ text.length := by
  have hlen : st + 26 ≤ text.length := cdn_match_length hp
  have hH : text[st]? = some 'h' := cdn_match_head hp
  have key : ∀ c : Char, c ≠ 'h' →
      ((findCharFrom text c st).getD NO_MATCHES_FOUND = NO_MATCHES_FOUND ∨
        (st < (findCharFrom text c st).getD NO_MATCHES_FOUND ∧
          (findCharFrom text c st).getD NO_MATCHES_FOUND < text.length)) := by
    intro c hc
    cases hf : findCharFrom text c st with
    | none => left; rfl
    | some j =>
      obtain ⟨hj1, hj2, hj3⟩ := findCharFrom_spec hf
      right
      have hne : j ≠ st := by
        intro he
        rw [he] at hj3
        exact hc (Option.some.inj (hH.symm.trans hj3)).symm
      simp only [Option.getD_some]
      omega
  have hcb : charBefore text st ≠ 'h' := by
    intro he
    rw [he] at hb
    exact absurd hb (by decide)
  have k1 := key _ hcb
  have k2 := key ' ' (by decide)
  have k3 := key ')' (by decide)
  simp only [endIndexOf]
  set e1 := (findCharFrom text (charBefore text st) st).getD NO_MATCHES_FOUND with he1
  set e2 := (findCharFrom text ' ' st).getD NO_MATCHES_FOUND with he2
  set e3 := (findCharFrom text ')' st).getD NO_MATCHES_FOUND with he3
  by_cases hm : min (min e1 e2) e3 = NO_MATCHES_FOUND
  · rw [if_pos hm]
    omega
  · rw [if_neg hm]
    have hchoice : min (min e1 e2) e3 = e1 ∨ min (min e1 e2) e3 = e2 ∨
        min (min e1 e2) e3 = e3 := by
      rcases min_choice (min e1 e2) e3 with h | h
      · rcases min_choice e1 e2 with h2 | h2
        · left; rw [h, h2]
        · right; left; rw [h, h2]
      · right; right; exact h
    rcases hchoice with h | h | h
    · rw [h] at hm ⊢
      rcases k1 with k | k
      · exact absurd k hm
      · exact ⟨k.1, le_of_lt k.2⟩
    · rw [h] at hm ⊢
      rcases k2 with k | k
      · exact absurd k hm
      · exact ⟨k.1, le_of_lt k.2⟩
    · rw [h] at hm ⊢
      rcases k3 with k | k
      · exact absurd k hm
      · exact ⟨k.1, le_of_lt k.2⟩

theorem extract_none_of_no_match {text : Str} (h : findSub text cdnPat = none) :
    extract_url_from_text text = none := by
  rw [extract_url_from_text, h]

theorem extract_inv {text url : Str} {st en : Nat}
    (h : extract_url_from_text text = some (url, st, en)) :
    findSub text cdnPat = some st ∧ (charBefore text st).isAlphanum = false ∧
      en = endIndexOf text st ∧ url = (text.drop st).take (en - st) := by
  rw [extract_url_from_text] at h
  split at h
  · cases h
  · next st' hfs =>
    split at h
    · cases h
    · next hbc =>
      simp only [Option.some.injEq, Prod.mk.injEq] at h
      obtain ⟨hurl, hst, hen⟩ := h
      subst hst
      refine ⟨hfs, by simpa using hbc, hen.symm, ?_⟩
      rw [← hurl, ← hen]

theorem rfindChar_none_not_mem {c : Char} {s : Str} (h : rfindChar c s = none) : c ∉ s := by
  induction s with
  | nil => simp
  | cons a rest ih =>
    cases hr : rfindChar c rest with
    | some i => simp only [rfindChar, hr] at h; cases h
    | none =>
      simp only [rfindChar, hr] at h
      by_cases hac : a = c
      · rw [if_pos hac] at h; cases h
      · simp only [List.mem_cons]
        rintro (rfl | hmem)
        · exact hac rfl
        · exact ih hr hmem

theorem rfindChar_some_not_mem_drop {c : Char} {s : Str} {i : Nat}
    (h : rfindChar c s = some i) : c ∉ s.drop (i + 1) := by
  induction s generalizing i with
  | nil => cases h
  | cons a rest ih =>
    cases hr : rfindChar c rest with
    | some j =>
      simp only [rfindChar, hr, Option.some.injEq] at h
      subst h
      simpa using ih hr
    | none =>
      simp only [rfindChar, hr] at h
      by_cases hac : a = c
      · rw [if_pos hac] at h
        simp only [Option.some.injEq] at h
        subst h
        simpa using rfindChar_none_not_mem hr
      · rw [if_neg hac] at h
        cases h

theorem map_eq_self_of {α : Type} {f : α → α} {l : List α} (h : ∀ x ∈ l, f x = x) :
    l.map f = l := by
  induction l with
  | nil => rfl
  | cons a t ih =>
    simp only [List.map_cons, h a (by simp)]
    rw [ih fun x hx => h x (by simp [hx])]

theorem update_url_in_line_of_no_match {line : Str} {inc : Bool}
    (h : findSub line cdnPat = none) : update_url_in_line line inc = line := by
  rw [update_url_in_line, extract_none_of_no_match h]

theorem zip_self_map {α β : Type} (l : List α) (g : α → β) :
    l.zip (l.map g) = l.map fun a => (a, g a) := by
  induction l with
  | nil => rfl
  | cons a t ih => simp [ih]

/-! ## Claim theorems -/

/-- Claim C1, counterexample.  The claim says that a line in which the CDN
origin first occurs at offset 0 is accepted unconditionally, with no
preceding-character boundary check.  On the line
`https://cdn.discordapp.com/a` the origin first occurs at offset 0, yet the
extractor returns no span: Python's `text[start_index - 1]` is `text[-1]`,
the LAST character `a`, which is alphanumeric, so the boundary check fires
and rejects the line. -/
theorem c1_counterexample :
    findSub ("https://cdn.discordapp.com/a".data) cdnPat = some 0 ∧
    extract_url_from_text ("https://cdn.discordapp.com/a".data) = none := by
  constructor
  · rfl
  · rfl

/-- Claim C1, amended.  When the CDN origin first occurs at offset 0 the
boundary check is still applied — to the line's last character, via Python's
negative index `-1`: the extractor returns `none` when that last character
is alphanumeric, and otherwise accepts the URL and returns a span whose
start offset is 0. -/
theorem c1_start_zero_amended (text : Str) (h : findSub text cdnPat = some 0) :
    ((text.getLastD ' ').isAlphanum = true → extract_url_from_text text = none) ∧
    ((text.getLastD ' ').isAlphanum = false →
      ∃ url en, extract_url_from_text text = some (url, 0, en)) := by
  have hcb : charBefore text 0 = text.getLastD ' ' := by rw [charBefore]; rfl
  constructor
  · intro ha
    rw [extract_url_from_text, h]
    have ha' : ((text.getLast?).getD ' ').isAlphanum = true := by
      rw [← List.getLastD_eq_getLast?]
      exact ha
    simp [hcb, ha']
  · intro ha
    rw [extract_url_from_text, h]
    simp only [hcb, ha, Bool.false_eq_true, if_false]
    exact ⟨_, _, rfl⟩

/-- Witness for the amended claim C1: on `https://cdn.discordapp.com/a\n`
(a line whose trailing newline is not alphanumeric) the origin occurs first
at offset 0 and a span with start offset 0 is returned. -/
theorem c1_witness :
    ∃ url en,
      extract_url_from_text ("https://cdn.discordapp.com/a\n".data) = some (url, 0, en) :=
  (c1_start_zero_amended ("https://cdn.discordapp.com/a\n".data) (by rfl)).2 (by rfl)

/-- Claim C3, counterexample.  The claim says every returned url text begins
with `https://cdn.discordapp.com`.  On the line consisting of a space
followed by exactly the origin, none of the three terminators occurs after
the match, so the fallback `end = len(text) - 1` cuts the last character
off: the returned url text `https://cdn.discordapp.co` does not begin with
the origin. -/
theorem c3_counterexample :
    extract_url_from_text (" https://cdn.discordapp.com".data) =
      some ("https://cdn.discordapp.co".data, 1, 26) ∧
    cdnPat.isPrefixOf ("https://cdn.discordapp.co".data) = false := by
  constructor
  · rfl
  · rfl

/-- Claim C3, amended.  For every span returned by the Span Extractor, the
line does contain the CDN origin beginning exactly at the start offset, and
the url text is the slice `line[start:end]`; that url text begins with the
full origin whenever the span is at least as long as the origin
(`end - start ≥ 26`), but the end-of-line fallback or a terminator found
inside the origin itself can truncate it to a proper prefix of the origin. -/
theorem c3_span_content_amended (text url : Str) (st en : Nat)
    (h : extract_url_from_text text = some (url, st, en)) :
    cdnPat.isPrefixOf (text.drop st) = true ∧
    url = (text.drop st).take (en - st) ∧
    (26 ≤ en - st → cdnPat.isPrefixOf url = true) := by
  obtain ⟨hfs, hbc, hen, hurl⟩ := extract_inv h
  have hp := findSubAux_isPrefixOf hfs
  refine ⟨hp, hurl, ?_⟩
  intro hlen
  rw [hurl]
  rw [List.isPrefixOf_iff_prefix] at hp ⊢
  rw [List.prefix_take_iff]
  refine ⟨hp, ?_⟩
  have h26 : cdnPat.length = 26 := by decide
  omega

/-- Witness for the amended claim C3, at the line
`(https://cdn.discordapp.com/q.png)` with span `(1, 33)`. -/
theorem c3_witness :
    cdnPat.isPrefixOf (("(https://cdn.discordapp.com/q.png)".data).drop 1) = true ∧
    "https://cdn.discordapp.com/q.png".data =
      (("(https://cdn.discordapp.com/q.png)".data).drop 1).take (33 - 1) ∧
    (26 ≤ 33 - 1 → cdnPat.isPrefixOf ("https://cdn.discordapp.com/q.png".data) = true) :=
  c3_span_content_amended ("(https://cdn.discordapp.com/q.png)".data)
    ("https://cdn.discordapp.com/q.png".data) 1 33 (by rfl)

/-- Claim C8: whenever the Span Extractor returns a span
`(url, start, end)`, the offsets satisfy `start < end ≤ length(line)`
(`0 ≤ start` holds because offsets are naturals), and when `start > 0` the
character at `start - 1` is not alphanumeric. -/
theorem c8_span_invariant (text url : Str) (st en : Nat)
    (h : extract_url_from_text text = some (url, st, en)) :
    st < en ∧ en ≤ text.length ∧
    (0 < st → (text.getD (st - 1) ' ').isAlphanum = false) := by
  obtain ⟨hfs, hbc, hen, -⟩ := extract_inv h
  have hp : cdnPat.isPrefixOf (text.drop st) = true := findSubAux_isPrefixOf hfs
  obtain ⟨h1, h2⟩ := endIndexOf_bounds hp hbc
  refine ⟨hen ▸ h1, hen ▸ h2, ?_⟩
  intro hst
  rw [charBefore, if_neg (by omega)] at hbc
  exact hbc

/-- Witness for claim C8, at the line `x(https://cdn.discordapp.com/q) y`,
whose span is `(2, 30)` and whose character at offset 1 is `(`. -/
theorem c8_witness :
    2 < 30 ∧ 30 ≤ ("x(https://cdn.discordapp.com/q) y".data : Str).length ∧
    (0 < 2 →
      (("x(https://cdn.discordapp.com/q) y".data : Str).getD (2 - 1) ' ').isAlphanum = false) :=
  c8_span_invariant ("x(https://cdn.discordapp.com/q) y".data)
    ("https://cdn.discordapp.com/q".data) 2 30 (by rfl)

/-- Claim C2, counterexample.  The claim says per-line processing is
idempotent on every line.  A line holding two qualifying URLs is only half
processed per pass: the first pass of `update_url_in_line` on
`' https://cdn.discordapp.com/a https://cdn.discordapp.com/b '` yields
`' /a https://cdn.discordapp.com/b '`, and a second pass rewrites it again
to `' /a /b '`. -/
theorem c2_counterexample :
    update_url_in_line
        (update_url_in_line
          (" https://cdn.discordapp.com/a https://cdn.discordapp.com/b ".data) false)
        false ≠
      update_url_in_line
        (" https://cdn.discordapp.com/a https://cdn.discordapp.com/b ".data) false := by
  decide

/-- Claim C2, amended.  Per-line processing is idempotent on lines whose
processed form no longer contains the CDN origin (the spec's own
"no remaining qualifying URLs" level): for a file all of whose processed
lines are origin-free, every processed line is a fixed point of
`update_url_in_line`, the Span Extractor finds no span on it, and a second
run of the File Processor reports nothing and performs no write (`none`).
Lines holding several qualifying URLs are only partially processed per
pass, so unconditional idempotence fails. -/
theorem c2_idempotent_amended (lines : List Str) (inc : Bool)
    (h : ∀ l ∈ lines.map (fun x => update_url_in_line x inc), findSub l cdnPat = none) :
    (∀ l ∈ lines.map (fun x => update_url_in_line x inc),
      extract_url_from_text l = none ∧ update_url_in_line l inc = l) ∧
    update_urls_in_file (lines.map (fun x => update_url_in_line x inc)) inc = none := by
  constructor
  · intro l hl
    exact ⟨extract_none_of_no_match (h l hl), update_url_in_line_of_no_match (h l hl)⟩
  · have hmap : (lines.map fun x => update_url_in_line x inc).map
        (fun l => update_url_in_line l inc) = lines.map fun x => update_url_in_line x inc :=
      map_eq_self_of fun x hx => update_url_in_line_of_no_match (h x hx)
    simp [update_urls_in_file, hmap]

/-- Witness for the amended claim C2: the single-line file
`' https://cdn.discordapp.com/a '` processes to `' /a '`, which contains no
origin, is a fixed point, and triggers no second write. -/
theorem c2_witness :
    (∀ l ∈ ([" https://cdn.discordapp.com/a ".data] : List Str).map
        (fun x => update_url_in_line x false),
      extract_url_from_text l = none ∧ update_url_in_line l false = l) ∧
    update_urls_in_file
      (([" https://cdn.discordapp.com/a ".data] : List Str).map
        (fun x => update_url_in_line x false)) false = none :=
  c2_idempotent_amended ([" https://cdn.discordapp.com/a ".data] : List Str) false (by decide)

/-- Claim C5: when a span `(url, st, en)` is extracted from a line and a
filename is derived from the url, the rewritten line is exactly
`line[0:st] + '/' + filename + line[en:]`, where the filename is prefixed
with `public/` exactly when the enclosing file's name (the path the Tree
Walker passes, whose flag is `file_path.endswith('.md')`) ends in `.md`. -/
theorem c5_line_rewrite (line file_path url file_name : Str) (st en : Nat)
    (h1 : extract_url_from_text line = some (url, st, en))
    (h2 : get_file_name_from_url url = some file_name) :
    update_url_in_line line (mdInclude file_path) =
      line.take st ++
        ('/' :: (if ".md".data.isSuffixOf file_path then "public/".data ++ file_name
                 else file_name)) ++
        line.drop en := by
  by_cases hmd : ".md".data.isSuffixOf file_path
  · simp [update_url_in_line, h1, h2, update_file_url, mdInclude, hmd]
  · simp [update_url_in_line, h1, h2, update_file_url, mdInclude, hmd]

/-- Witness for claim C5: the line `(https://cdn.discordapp.com/w.png)` in
the markdown file `a.md` becomes `(/public/w.png)` — the slice formula with
the `public/` piece. -/
theorem c5_witness :
    update_url_in_line ("(https://cdn.discordapp.com/w.png)".data) (mdInclude ("a.md".data)) =
      ("(https://cdn.discordapp.com/w.png)".data : Str).take 1 ++
        ('/' :: (if ".md".data.isSuffixOf ("a.md".data) then "public/".data ++ "w.png".data
                 else "w.png".data)) ++
        ("(https://cdn.discordapp.com/w.png)".data : Str).drop 33 :=
  c5_line_rewrite ("(https://cdn.discordapp.com/w.png)".data) ("a.md".data)
    ("https://cdn.discordapp.com/w.png".data) ("w.png".data) 1 33 (by rfl) (by rfl)

/-- Claim C6, counterexample.  The claim describes step 2 as stripping the
LEADING `https://`; the code's `url.replace('https://', '')` removes every
occurrence instead.  On `ahttps://b` the code removes the inner occurrence,
leaving `ab` with no `/`, and returns none, while the claim's five-step
reference derives `b`. -/
theorem c6_counterexample :
    get_file_name_from_url ("ahttps://b".data) = none ∧
    filenameDeriverSpecLeading ("ahttps://b".data) = some ("b".data) := by
  constructor
  · rfl
  · rfl

/-- Claim C6, amended.  The Filename Deriver equals the five-step reference
definition with step 2 amended to remove EVERY occurrence of `https://`
(as `str.replace` does), not only a leading one; the remaining four steps
are as the claim states them. -/
theorem c6_deriver_amended : ∀ url : Str,
    get_file_name_from_url url = filenameDeriverSpecAll url := fun _ => rfl

/-- Claim C7: a file whose full path contains any configured excluded
fragment (`.git`, `node_modules`, `__pycache__`) as a substring is never
passed to the File Processor by the Tree Walker, whatever the enumerated
file list is. -/
theorem c7_excluded_never_processed (files : List Str) (p d : Str)
    (hd : d ∈ ignored_dirs) (hsub : pyContains p d = true) :
    p ∉ update_urls_in_project files := by
  intro hmem
  rw [update_urls_in_project, List.mem_filter] at hmem
  obtain ⟨-, hpred⟩ := hmem
  have hany : ignored_dirs.any (fun d => pyContains p d) = false := by
    simpa using hpred
  exact (List.any_eq_false.mp hany d hd) hsub

/-- Witness for claim C7: `project/.git/config` contains the fragment
`.git` and is filtered out of the walker's selection. -/
theorem c7_witness :
    ("project/.git/config".data : Str) ∉
      update_urls_in_project [("project/.git/config".data : Str)] :=
  c7_excluded_never_processed [("project/.git/config".data : Str)]
    ("project/.git/config".data) (".git".data) (by decide) (by rfl)

/-- Claim C9: every filename returned by the Filename Deriver contains no
`/` — it is the segment strictly after the last remaining `/`, possibly
with a trailing `?` stripped — so the asset's destination path places the
file directly inside the asset directory. -/
theorem c9_filename_no_slash (url file_name : Str)
    (h : get_file_name_from_url url = some file_name) : '/' ∉ file_name := by
  simp only [get_file_name_from_url] at h
  cases hr : rfindChar '/' (pyReplaceHttps (if pyEndsWith url '/' then url.dropLast else url)) with
  | none => rw [hr] at h; cases h
  | some i =>
    rw [hr] at h
    have hnm := rfindChar_some_not_mem_drop hr
    simp only [Option.some.injEq] at h
    subst h
    by_cases hq :
        pyEndsWith ((pyReplaceHttps (if pyEndsWith url '/' then url.dropLast else url)).drop
          (i + 1)) '?'
    · rw [if_pos hq]
      intro hmem
      exact hnm ((List.dropLast_sublist _).subset hmem)
    · rw [if_neg hq]
      exact hnm

/-- Witness for claim C9, at `https://cdn.discordapp.com/dir/pic.png`,
whose derived filename `pic.png` has no `/`. -/
theorem c9_witness : '/' ∉ ("pic.png".data : Str) :=
  c9_filename_no_slash ("https://cdn.discordapp.com/dir/pic.png".data) ("pic.png".data) (by rfl)

/-- Claim C10: for the url `https://cdn.discordapp.com/a//` (only one
trailing `/` is stripped) the Filename Deriver returns the EMPTY string,
not none; the line is then still rewritten, the URL being replaced by the
bare local reference `/`, and the asset destination path ends in a
trailing `/`. -/
theorem c10_empty_filename :
    get_file_name_from_url ("https://cdn.discordapp.com/a//".data) = some ([] : Str) ∧
    update_url_in_line (" https://cdn.discordapp.com/a// x".data) false = " / x".data ∧
    assetDestPath ("proj".data) ([] : Str) = "proj/public/".data ∧
    ("proj/public/".data : Str).getLast? = some '/' := by
  refine ⟨rfl, rfl, rfl, rfl⟩

theorem filter_changed_map {f : Str → Str} (l : List Str) :
    ((l.map fun a => (a, f a)).filter (fun q => decide (q.1 ≠ q.2))).map Prod.snd =
      (l.filter fun a => decide (a ≠ f a)).map f := by
  induction l with
  | nil => rfl
  | cons a t ih =>
    rw [List.map_cons, List.filter_cons, List.filter_cons]
    by_cases hne : a ≠ f a
    · rw [if_pos (decide_eq_true hne), if_pos (decide_eq_true hne), List.map_cons, ih]
      rfl
    · rw [if_neg (fun hd => hne (of_decide_eq_true hd)),
        if_neg (fun hd => hne (of_decide_eq_true hd))]
      exact ih

/-- Claim C4, counterexample.  The claim says the reported count equals the
number of distinct changed lines.  For the two-line file
`(https://cdn.discordapp.com/x)`, `(/x)`, the first line is rewritten to
`(/x)` (one distinct changed line), but the rewritten value already occurs
as the second original line, so `len(set(lines) - set(old_lines))` is 0:
the file is rewritten yet reported with count 0, not 1. -/
theorem c4_counterexample :
    update_urls_in_file
        (["(https://cdn.discordapp.com/x)".data, "(/x)".data] : List Str) false =
      some ((["(/x)".data, "(/x)".data] : List Str), 0) ∧
    distinctChangedLinesCount
      (["(https://cdn.discordapp.com/x)".data, "(/x)".data] : List Str)
      (["(/x)".data, "(/x)".data] : List Str) = 1 := by
  constructor
  · rfl
  · rfl

/-- Claim C4, amended.  For every file whose rewritten line sequence
differs from the original, the File Processor reports the count
`len(set(lines) - set(old_lines))` — the number of distinct NEW line
values that occur nowhere in the original sequence.  This equals the
claim's "number of distinct changed lines" whenever no rewritten line value
coincides with a line occurring elsewhere in the original file; when one
does, the reported count undercounts. -/
theorem c4_report_count_amended (old_lines new_lines : List Str) (inc : Bool) (n : Nat)
    (h : update_urls_in_file old_lines inc = some (new_lines, n))
    (hfresh : ∀ l ∈ old_lines,
      update_url_in_line l inc ≠ l → update_url_in_line l inc ∉ old_lines) :
    n = distinctChangedLinesCount old_lines new_lines := by
  simp only [update_urls_in_file] at h
  split at h
  · cases h
  · simp only [Option.some.injEq, Prod.mk.injEq] at h
    obtain ⟨hnew, hn⟩ := h
    subst hnew
    subst hn
    have hset : ((old_lines.map fun l => update_url_in_line l inc).toFinset \
          old_lines.toFinset) =
        ((old_lines.filter fun a => decide (a ≠ update_url_in_line a inc)).map
          (fun l => update_url_in_line l inc)).toFinset := by
      ext v
      simp only [Finset.mem_sdiff, List.mem_toFinset, List.mem_map, List.mem_filter,
        decide_eq_true_eq]
      constructor
      · rintro ⟨⟨a, ha, rfl⟩, hv⟩
        exact ⟨a, ⟨ha, fun he => hv (he ▸ ha)⟩, rfl⟩
      · rintro ⟨a, ⟨ha, hne⟩, rfl⟩
        exact ⟨⟨a, ha, rfl⟩, hfresh a ha fun he => hne he.symm⟩
    rw [pyNewLinesCount, distinctChangedLinesCount, zip_self_map, filter_changed_map, hset]

/-- Witness for the amended claim C4: the one-line file
`(https://cdn.discordapp.com/y)` is rewritten to `(/y)`, which occurs
nowhere in the original, and the reported count 1 equals the number of
distinct changed lines. -/
theorem c4_witness :
    1 = distinctChangedLinesCount (["(https://cdn.discordapp.com/y)".data] : List Str)
      (["(/y)".data] : List Str) :=
  c4_report_count_amended (["(https://cdn.discordapp.com/y)".data] : List Str)
    (["(/y)".data] : List Str) false 1 (by rfl) (by decide)
